import Mathlib

/-!
Verification development for the `py_subtitle_extractor` MKV parsing core
(`resources/lib/py_subtitle_extractor/mkv.py`).

The file is modelled as a `List Nat` of bytes together with an explicit
read position.  Python file/mmap semantics are embedded as follows:
`f.read(n)` returns up to `n` bytes and advances by the number returned
(short reads at end of data are silent); `f.read(n)` with a negative `n`
returns all remaining bytes (CPython behaviour for both buffered files and
mmap objects); `f.seek(off, 1)` adds `off` to the position and fails on a
negative absolute target.  Fallible operations return `Except Err`.
All scanning loops are written with an explicit fuel parameter so that
every definition is structurally recursive and executable; the public
entry points supply `length + 1` fuel, which dominates the number of loop
iterations in every terminating run (each iteration consumes at least one
header of two bytes, except for runs that re-read bytes after a backward
seek, which correspond to runs where the Python code would loop over the
same region).
-/

namespace Mkv

/-- Error outcomes of the embedded parser.  `eof` models `EOFError` raised by
the EBML primitive readers on truncation, `invalid` a structurally invalid
vint encoding, `index` Python's `IndexError` on `v[0]` of an empty bytes
object, `seek` an `OSError` from seeking to a negative absolute position, and
`fuel` exhaustion of the explicit fuel (a run in which the Python code would
keep re-scanning the same region). -/
inductive Err where
  | eof
  | invalid
  | index
  | seek
  | fuel
deriving Repr, DecidableEq

/-- Result monad of the embedding. -/
abbrev M (α : Type) : Type := Except Err α

/-- Python `f.read(n)` for `n ≥ 0`: the next `n` bytes (fewer at end of
data), together with the new position. -/
def readN (f : List Nat) (p n : Nat) : List Nat × Nat :=
  let chunk := (f.drop p).take n
  (chunk, p + chunk.length)

/-- Python `f.read(n)` with `n` negative: all remaining bytes. -/
def readAll (f : List Nat) (p : Nat) : List Nat × Nat :=
  let chunk := f.drop p
  (chunk, p + chunk.length)

/-- Python `f.read(n)` where `n` may be negative (CPython reads to the end of
the data when the count is negative). -/
def readI (f : List Nat) (p : Nat) (n : Int) : List Nat × Nat :=
  if n < 0 then readAll f p else readN f p n.toNat

/-- Python `f.seek(off, 1)`: relative seek, failing on a negative absolute
target position. -/
def seekRel (p : Nat) (off : Int) : M Nat :=
  if (p : Int) + off < 0 then .error .seek else .ok ((p : Int) + off).toNat

/-- Big-endian unsigned value of a byte string: Python
`int.from_bytes(l, "big")`. -/
def beVal (l : List Nat) : Nat :=
  l.foldl (fun a b => a * 256 + b) 0

/-- Big-endian signed value of a byte string: Python
`int.from_bytes(l, "big", signed=True)` (the empty string yields 0). -/
def intFromBytesSigned (l : List Nat) : Int :=
  let v := beVal l
  if v < 2 ^ (8 * l.length - 1) then (v : Int) else (v : Int) - 2 ^ (8 * l.length)

/-- Number of bytes of an EBML vint whose first byte is `b`: one plus the
number of leading zero bits of `b` (for byte values `1 ≤ b ≤ 255`). -/
def vintLen (b : Nat) : Nat :=
  if 0x80 ≤ b then 1
  else if 0x40 ≤ b then 2
  else if 0x20 ≤ b then 3
  else if 0x10 ≤ b then 4
  else if 0x8 ≤ b then 5
  else if 0x4 ≤ b then 6
  else if 0x2 ≤ b then 7
  else 8

/-- Modelled from the spec: `read_id` of `resources/lib/py_subtitle_extractor/
ebml.py`, which is imported by `mkv.py` but is not part of the given sources.
Per spec section 4.1 it reads an EBML element ID: the first byte's leading
zero-bit count determines the total length, the full encoded byte sequence
including the length-marker bits is the ID value, and an end-of-input
condition is signalled if fewer bytes remain than the encoding requires,
distinctly from a structurally invalid encoding.  Returns
`(value, bytes_consumed, new_position)`. -/
def read_id (f : List Nat) (p : Nat) : M (Nat × Nat × Nat) :=
  match f.drop p with
  | [] => .error .eof
  | b :: _ =>
    if b = 0 then .error .invalid
    else
      let n := vintLen b
      let bytes := (f.drop p).take n
      if bytes.length < n then .error .eof
      else .ok (beVal bytes, n, p + n)

/-- Modelled from the spec: the shared body of `read_size` and `read_vint` of
`ebml.py` (not in the given sources).  Per spec section 4.1 these follow the
same length rule as `read_id` but strip the leading length-marker bit,
yielding the numeric value. -/
def read_stripped (f : List Nat) (p : Nat) : M (Nat × Nat × Nat) :=
  match f.drop p with
  | [] => .error .eof
  | b :: _ =>
    if b = 0 then .error .invalid
    else
      let n := vintLen b
      let bytes := (f.drop p).take n
      if bytes.length < n then .error .eof
      else .ok (beVal ((b % 2 ^ (8 - n)) :: bytes.tail), n, p + n)

/-- Modelled from the spec: `read_size` of `ebml.py` (not in the given
sources); see `read_stripped`. -/
def read_size (f : List Nat) (p : Nat) : M (Nat × Nat × Nat) :=
  read_stripped f p

/-- Modelled from the spec: `read_vint` of `ebml.py` (not in the given
sources); see `read_stripped`. -/
def read_vint (f : List Nat) (p : Nat) : M (Nat × Nat × Nat) :=
  read_stripped f p

/-- `_read_header` of `mkv.py`: an element ID followed by an element size;
returns `(id, size, new_position)`. -/
def read_header (f : List Nat) (p : Nat) : M (Nat × Nat × Nat) :=
  match read_id f p with
  | .error e => .error e
  | .ok (eid, _, p1) =>
    match read_size f p1 with
    | .error e => .error e
    | .ok (sz, _, p2) => .ok (eid, sz, p2)

/-! ### Permissive UTF-8 decoding and `str.strip()` -/

/-- Validity of the second byte of a three-byte UTF-8 sequence led by `b`
(tightened ranges for `0xE0` and `0xED` exclude overlong encodings and
surrogates, as CPython's decoder does). -/
def utf8Cont3 (b b2 : Nat) : Bool :=
  if b = 0xE0 then decide (0xA0 ≤ b2 ∧ b2 < 0xC0)
  else if b = 0xED then decide (0x80 ≤ b2 ∧ b2 < 0xA0)
  else decide (0x80 ≤ b2 ∧ b2 < 0xC0)

/-- Validity of the second byte of a four-byte UTF-8 sequence led by `b`. -/
def utf8Cont4 (b b2 : Nat) : Bool :=
  if b = 0xF0 then decide (0x90 ≤ b2 ∧ b2 < 0xC0)
  else if b = 0xF4 then decide (0x80 ≤ b2 ∧ b2 < 0x90)
  else decide (0x80 ≤ b2 ∧ b2 < 0xC0)

/-- Fuel-indexed worker for `utf8DecodeIgnore`; the fuel is always at least
the length of the remaining list, so it never runs out when started with the
list's length. -/
def utf8Go : Nat → List Nat → List Char
  | 0, _ => []
  | _ + 1, [] => []
  | fuel + 1, b :: r =>
    if b < 0x80 then Char.ofNat b :: utf8Go fuel r
    else if b < 0xC2 then utf8Go fuel r
    else if b < 0xE0 then
      match r with
      | [] => []
      | b2 :: r2 =>
        if decide (0x80 ≤ b2 ∧ b2 < 0xC0) then
          Char.ofNat ((b - 0xC0) * 0x40 + (b2 - 0x80)) :: utf8Go fuel r2
        else utf8Go fuel (b2 :: r2)
    else if b < 0xF0 then
      match r with
      | [] => []
      | [_] => []
      | b2 :: b3 :: r3 =>
        if utf8Cont3 b b2 then
          if decide (0x80 ≤ b3 ∧ b3 < 0xC0) then
            Char.ofNat ((b - 0xE0) * 0x1000 + (b2 - 0x80) * 0x40 + (b3 - 0x80)) ::
              utf8Go fuel r3
          else utf8Go fuel (b3 :: r3)
        else utf8Go fuel (b2 :: b3 :: r3)
    else if b < 0xF5 then
      match r with
      | [] => []
      | [_] => []
      | [_, _] => []
      | b2 :: b3 :: b4 :: r4 =>
        if utf8Cont4 b b2 then
          if decide (0x80 ≤ b3 ∧ b3 < 0xC0) then
            if decide (0x80 ≤ b4 ∧ b4 < 0xC0) then
              Char.ofNat
                ((b - 0xF0) * 0x40000 + (b2 - 0x80) * 0x1000 +
                  (b3 - 0x80) * 0x40 + (b4 - 0x80)) :: utf8Go fuel r4
            else utf8Go fuel (b4 :: r4)
          else utf8Go fuel (b3 :: b4 :: r4)
        else utf8Go fuel (b2 :: b3 :: b4 :: r4)
    else utf8Go fuel r

/-- Python `bytes.decode("utf-8", "ignore")`: permissive UTF-8 decoding in
which invalid byte sequences are dropped rather than fatal. -/
def utf8DecodeIgnore (l : List Nat) : List Char :=
  utf8Go l.length l

/-- Code points treated as whitespace by Python's `str.strip()`
(`str.isspace` characters). -/
def pySpaceCodes : List Nat :=
  [0x9, 0xA, 0xB, 0xC, 0xD, 0x1C, 0x1D, 0x1E, 0x1F, 0x20, 0x85, 0xA0,
   0x1680, 0x2000, 0x2001, 0x2002, 0x2003, 0x2004, 0x2005, 0x2006, 0x2007,
   0x2008, 0x2009, 0x200A, 0x2028, 0x2029, 0x202F, 0x205F, 0x3000]

/-- Whether a character is stripped by Python's `str.strip()`. -/
def isPySpace (c : Char) : Bool :=
  pySpaceCodes.contains c.toNat

/-- Python `str.strip()` on a character list: drop leading and trailing
whitespace. -/
def stripChars (l : List Char) : List Char :=
  ((l.dropWhile isPySpace).reverse.dropWhile isPySpace).reverse

/-- `v.decode("utf-8", "ignore")` as a Lean `String`. -/
def pyDecode (l : List Nat) : String :=
  String.mk (utf8DecodeIgnore l)

/-- `f.read(plen).decode("utf-8", "ignore").strip()` of a byte payload. -/
def decodeStrip (l : List Nat) : String :=
  String.mk (stripChars (utf8DecodeIgnore l))

/-! ### Element ID constants of `mkv.py` -/

def SEGMENT : Nat := 0x18538067
def TRACKS : Nat := 0x1654AE6B
def TRACKENTRY : Nat := 0xAE
def TRACKTYPE : Nat := 0x83
def TRACKNUMBER : Nat := 0xD7
def CODECID : Nat := 0x86
def TRACKNAME : Nat := 0x536E
def LANG_BCP47 : Nat := 0x22B59D
def LANG : Nat := 0x22B59C
def CLUSTER : Nat := 0x1F43B675
def TIMECODE : Nat := 0xE7
def SIMPLEBLK : Nat := 0xA3
def BLKGROUP : Nat := 0xA0
def BLOCK : Nat := 0xA1
def BLOCKDUR : Nat := 0x9B

/-! ### Track table builder -/

/-- The track descriptor dictionary built by `_parse_track_entry` (the field
`ttype` embeds the dictionary key `type`). -/
structure Track where
  ttype : Nat
  track_number : Nat
  codec_id : String
  language : String
  name : String
deriving Repr, DecidableEq

/-- The initial descriptor of `_parse_track_entry`:
`{"type":0,"track_number":0,"codec_id":"","language":"","name":""}`. -/
def Track.init : Track :=
  ⟨0, 0, "", "", ""⟩

/-- Loop body of `_parse_track_entry`: scan `(id, size)` headers over the
entry's buffer, reading `size` bytes of content each time; `EOFError` from the
header read breaks the loop, returning the accumulated dictionary.  A
`TRACKTYPE` element takes `v[0]` (an `IndexError` on empty content), a
`LANG_BCP47` element overwrites the language unconditionally, a legacy `LANG`
element only when the language is still empty. -/
def parseEntryLoop (data : List Nat) : Nat → Nat → Track → M Track
  | 0, _, _ => .error .fuel
  | fuel + 1, p, info =>
    match read_header data p with
    | .error .eof => .ok info
    | .error e => .error e
    | .ok (eid, sz, p1) =>
      let (v, p2) := readN data p1 sz
      if eid = TRACKTYPE then
        match v with
        | [] => .error .index
        | b :: _ => parseEntryLoop data fuel p2 { info with ttype := b }
      else if eid = TRACKNUMBER then
        parseEntryLoop data fuel p2 { info with track_number := beVal v }
      else if eid = CODECID then
        parseEntryLoop data fuel p2 { info with codec_id := pyDecode v }
      else if eid = LANG_BCP47 then
        parseEntryLoop data fuel p2 { info with language := pyDecode v }
      else if eid = LANG then
        if info.language = "" then
          parseEntryLoop data fuel p2 { info with language := pyDecode v }
        else parseEntryLoop data fuel p2 info
      else if eid = TRACKNAME then
        parseEntryLoop data fuel p2 { info with name := pyDecode v }
      else parseEntryLoop data fuel p2 info

/-- `_parse_track_entry` of `mkv.py`. -/
def parse_track_entry (data : List Nat) : M Track :=
  parseEntryLoop data (data.length + 1) 0 Track.init

/-- Loop body of `_parse_tracks`: scan `(id, size)` headers over the Tracks
buffer, parsing each `TRACKENTRY` chunk; `EOFError` from the header read
breaks the loop. -/
def parseTracksLoop (data : List Nat) : Nat → Nat → List Track → M (List Track)
  | 0, _, _ => .error .fuel
  | fuel + 1, p, acc =>
    match read_header data p with
    | .error .eof => .ok acc
    | .error e => .error e
    | .ok (eid, sz, p1) =>
      let (chunk, p2) := readN data p1 sz
      if eid = TRACKENTRY then
        match parse_track_entry chunk with
        | .error e => .error e
        | .ok t => parseTracksLoop data fuel p2 (acc ++ [t])
      else parseTracksLoop data fuel p2 acc

/-- `_parse_tracks` of `mkv.py`. -/
def parse_tracks (data : List Nat) : M (List Track) :=
  parseTracksLoop data (data.length + 1) 0 []

/-- Segment-children loop of `extract_subtitle_tracks`: scan top-level
children of the Segment; on the first `TRACKS` element read its body and
return the subtitle entries, otherwise skip by the declared size. -/
def tracksScan (f : List Nat) (endp : Nat) : Nat → Nat → M (List Track)
  | 0, _ => .error .fuel
  | fuel + 1, p =>
    if p < endp then
      match read_header f p with
      | .error e => .error e
      | .ok (eid, sz, p1) =>
        if eid = TRACKS then
          match parse_tracks (readN f p1 sz).1 with
          | .error e => .error e
          | .ok ts => .ok (ts.filter fun t => t.ttype = 0x11)
        else tracksScan f endp fuel (p1 + sz)
    else .ok []

/-- `extract_subtitle_tracks` of `mkv.py`: skip the first top-level element,
require the second to be the Segment (otherwise return `[]`), then scan its
children for the Tracks element. -/
def extract_subtitle_tracks (f : List Nat) : M (List Track) :=
  match read_header f 0 with
  | .error e => .error e
  | .ok (_, h, p1) =>
    match read_header f (p1 + h) with
    | .error e => .error e
    | .ok (eid, h2, p2) =>
      if eid = SEGMENT then tracksScan f (p2 + h2) (f.length + 1) p2
      else .ok []

/-! ### Cue stream extractor -/

/-- A subtitle cue: `(start, text)` or `(start, text, stop)`. -/
inductive Cue where
  | two (start : Int) (text : String)
  | three (start : Int) (text : String) (stop : Int)
deriving Repr, DecidableEq

/-- Start time of a cue. -/
def Cue.start : Cue → Int
  | .two s _ => s
  | .three s _ _ => s

/-- Text of a cue. -/
def Cue.text : Cue → String
  | .two _ t => t
  | .three _ t _ => t

/-- `_read_cluster_time` of `mkv.py`: scan the cluster's children from the
current position, skipping every non-`TIMECODE` element by its declared size,
and return the first Timecode value found (consuming it); return 0 when the
cluster's end is reached without one. -/
def read_cluster_time (f : List Nat) (endp : Nat) : Nat → Nat → M (Nat × Nat)
  | 0, _ => .error .fuel
  | fuel + 1, p =>
    if p < endp then
      match read_header f p with
      | .error e => .error e
      | .ok (eid, sz, p1) =>
        if eid = TIMECODE then
          let (v, p2) := readN f p1 sz
          .ok (beVal v, p2)
        else read_cluster_time f endp fuel (p1 + sz)
    else .ok (0, p)

/-- `_handle_block` of `mkv.py`: read the track vint, the 2-byte signed
relative timestamp and one flags byte, compute
`plen = sz - vint_length - 3` (an `Int`: it can be negative), then either
read and decode the payload (emitting one 2-tuple cue unconditionally) or
seek over it. -/
def handle_block (f : List Nat) (p sz base track : Nat) : M (List Cue × Nat) :=
  match read_vint f p with
  | .error e => .error e
  | .ok (trk, vlen, p1) =>
    let (tsB, p2) := readN f p1 2
    let t := intFromBytesSigned tsB
    let (_, p3) := readN f p2 1
    let plen : Int := (sz : Int) - (vlen : Int) - 3
    if trk = track then
      let (payload, p4) := readI f p3 plen
      .ok ([Cue.two ((base : Int) + t) (decodeStrip payload)], p4)
    else
      match seekRel p3 plen with
      | .error e => .error e
      | .ok p4 => .ok ([], p4)

/-- Mutable state of the `_handle_group` scan: captured text, last relative
timestamp, and duration (each `none` until assigned, like the Python `None`
initialisations). -/
structure GState where
  gtxt : Option String
  gts : Option Int
  gdur : Option Nat
deriving Repr, DecidableEq

/-- The initial `_handle_group` state: `txt = t_rel = duration = None`. -/
def GState.init : GState :=
  ⟨none, none, none⟩

/-- Scanning loop of `_handle_group`: a `BLOCK` child always records its
relative timestamp; its text is captured only when the track matches,
otherwise the scan seeks to the block's declared end; a `BLOCKDUR` child
records its big-endian value; anything else is skipped by its size. -/
def groupLoop (f : List Nat) (endp track : Nat) : Nat → Nat → GState → M (GState × Nat)
  | 0, _, _ => .error .fuel
  | fuel + 1, p, st =>
    if p < endp then
      match read_header f p with
      | .error e => .error e
      | .ok (eid, s, p1) =>
        if eid = BLOCK then
          match read_vint f p1 with
          | .error e => .error e
          | .ok (trk, vlen, p2) =>
            let (tsB, p3) := readN f p2 2
            let t := intFromBytesSigned tsB
            let (_, p4) := readN f p3 1
            let plen : Int := (s : Int) - (vlen : Int) - 3
            if trk = track then
              let (payload, p5) := readI f p4 plen
              groupLoop f endp track fuel p5
                { st with gtxt := some (decodeStrip payload), gts := some t }
            else
              groupLoop f endp track fuel (p1 + s) { st with gts := some t }
        else if eid = BLOCKDUR then
          let (v, p2) := readN f p1 s
          groupLoop f endp track fuel p2 { st with gdur := some (beVal v) }
        else groupLoop f endp track fuel (p1 + s) st
    else .ok (st, p)

/-- Final emission of `_handle_group`: `if txt and t_rel is not None`, emit a
3-tuple when `duration` is truthy (not `None` and nonzero), else a 2-tuple;
otherwise emit nothing. -/
def groupEmit (base : Nat) (st : GState) : List Cue :=
  match st.gtxt, st.gts with
  | some t, some r =>
    if t = "" then []
    else
      let start : Int := (base : Int) + r
      match st.gdur with
      | some d => if d ≠ 0 then [Cue.three start t (start + (d : Int))] else [Cue.two start t]
      | none => [Cue.two start t]
  | _, _ => []

/-- `_handle_group` of `mkv.py`. -/
def handle_group (f : List Nat) (p sz base track : Nat) : M (List Cue × Nat) :=
  match groupLoop f (p + sz) track (f.length + 1) p GState.init with
  | .error e => .error e
  | .ok (st, p') => .ok (groupEmit base st, p')

/-- Block-scanning loop of `_parse_cluster` (entered after
`_read_cluster_time` has consumed everything up to and including the first
Timecode element). -/
def clusterLoop (f : List Nat) (endp base track : Nat) :
    Nat → Nat → List Cue → M (List Cue × Nat)
  | 0, _, _ => .error .fuel
  | fuel + 1, p, acc =>
    if p < endp then
      match read_header f p with
      | .error e => .error e
      | .ok (eid, sz, p1) =>
        if eid = SIMPLEBLK then
          match handle_block f p1 sz base track with
          | .error e => .error e
          | .ok (cs, p2) => clusterLoop f endp base track fuel p2 (acc ++ cs)
        else if eid = BLKGROUP then
          match handle_group f p1 sz base track with
          | .error e => .error e
          | .ok (cs, p2) => clusterLoop f endp base track fuel p2 (acc ++ cs)
        else clusterLoop f endp base track fuel (p1 + sz) acc
    else .ok (acc, p)

/-- `_parse_cluster` of `mkv.py`: first `_read_cluster_time` (which skips
every element it scans, blocks included, until it finds a Timecode or reaches
the cluster's end), then block scanning from wherever that search stopped. -/
def parse_cluster (f : List Nat) (p sz track : Nat) : M (List Cue × Nat) :=
  match read_cluster_time f (p + sz) (f.length + 1) p with
  | .error e => .error e
  | .ok (base, p1) => clusterLoop f (p + sz) base track (f.length + 1) p1 []

/-- Segment-children loop of `_extract_subtitles_from`.  After each child
(cluster or skipped element) the integer percentage
`int(100 * pos / (segment_end - segment_start))` is computed (modelled with
exact natural division; CPython computes the same value via float division
for the magnitudes involved here) and the progress callback fires exactly
when it differs from the previously reported one (`None` models the `-1`
sentinel).  `prog` accumulates the percentage values passed to the callback;
the callback itself receives `percent / 100` as a float. -/
def segScan (f : List Nat) (track segStart segEnd : Nat) :
    Nat → Nat → Option Nat → List Cue → List Nat → M (List Cue × List Nat)
  | 0, _, _, _, _ => .error .fuel
  | fuel + 1, p, last, subs, prog =>
    if p < segEnd then
      match read_header f p with
      | .error e => .error e
      | .ok (eid, sz, p1) =>
        match (if eid = CLUSTER then parse_cluster f p1 sz track
               else .ok ([], p1 + sz) : M (List Cue × Nat)) with
        | .error e => .error e
        | .ok (cs, p2) =>
          let percent := 100 * (p2 - segStart) / (segEnd - segStart)
          if last ≠ some percent then
            segScan f track segStart segEnd fuel p2 (some percent) (subs ++ cs)
              (prog ++ [percent])
          else segScan f track segStart segEnd fuel p2 last (subs ++ cs) prog
    else .ok (subs, prog)

/-- `_extract_subtitles_from` of `mkv.py`: skip the first top-level element,
require the second to be the Segment (otherwise return no cues and fire no
progress callback), then scan its children.  Returns the cue list together
with the trace of integer percentages passed to the progress callback. -/
def extract_subtitles_from (f : List Nat) (track : Nat) : M (List Cue × List Nat) :=
  match read_header f 0 with
  | .error e => .error e
  | .ok (_, h, p1) =>
    match read_header f (p1 + h) with
    | .error e => .error e
    | .ok (eid, h2, p2) =>
      if eid = SEGMENT then
        segScan f track p2 (p2 + h2) (f.length + 1) p2 none [] []
      else .ok ([], [])

/-- `extract_subtitles` of `mkv.py`.  The mmap/buffered-file choice is a pure
performance concern with identical read/seek semantics, so both paths are one
function here. -/
def extract_subtitles (f : List Nat) (track : Nat) : M (List Cue × List Nat) :=
  extract_subtitles_from f track

/-! ### EBML encoders

Synthetic encoders used to state universal properties of the parser over
whole families of well-formed inputs (the round-trip style of spec section
8).  Sizes and the in-block track vint are always encoded in the 8-byte vint
form (first byte `0x01`, then seven value bytes), which the readers above
decode for any value below `2 ^ 56`. -/

/-- `k`-byte big-endian encoding of `n`. -/
def beBytes : Nat → Nat → List Nat
  | 0, _ => []
  | k + 1, n => beBytes k (n / 256) ++ [n % 256]

/-- 8-byte EBML vint encoding of `n` (for `n < 2 ^ 56`). -/
def encSize (n : Nat) : List Nat :=
  1 :: beBytes 7 n

/-- A generic EBML element: ID bytes, 8-byte size, payload. -/
def encElem (ib : List Nat) (pl : List Nat) : List Nat :=
  ib ++ encSize pl.length ++ pl

/-- Abstract children of a TrackEntry element. -/
inductive EElem where
  | etype (b : Nat)
  | enumber (v : List Nat)
  | ecodec (pl : List Nat)
  | ebcp47 (pl : List Nat)
  | elang (pl : List Nat)
  | ename (pl : List Nat)
deriving Repr, DecidableEq

/-- Byte encoding of one TrackEntry child. -/
def encEElem : EElem → List Nat
  | .etype b => encElem [0x83] [b]
  | .enumber v => encElem [0xD7] v
  | .ecodec pl => encElem [0x86] pl
  | .ebcp47 pl => encElem [0x22, 0xB5, 0x9D] pl
  | .elang pl => encElem [0x22, 0xB5, 0x9C] pl
  | .ename pl => encElem [0x53, 0x6E] pl

/-- Byte encoding of a TrackEntry body. -/
def encEList : List EElem → List Nat
  | [] => []
  | e :: es => encEElem e ++ encEList es

/-- The per-child state update performed by the `_parse_track_entry` loop:
`LANG_BCP47` overwrites the language unconditionally, legacy `LANG` only when
the language is still empty. -/
def estep (i : Track) : EElem → Track
  | .etype b => { i with ttype := b }
  | .enumber v => { i with track_number := beVal v }
  | .ecodec pl => { i with codec_id := pyDecode pl }
  | .ebcp47 pl => { i with language := pyDecode pl }
  | .elang pl => if i.language = "" then { i with language := pyDecode pl } else i
  | .ename pl => { i with name := pyDecode pl }

/-- Encodability side condition for a TrackEntry child (payload fits in the
8-byte size vint; a type byte is an actual byte). -/
def eOk : EElem → Bool
  | .etype b => decide (b < 256)
  | .enumber v => decide (v.length < 2 ^ 56)
  | .ecodec pl => decide (pl.length < 2 ^ 56)
  | .ebcp47 pl => decide (pl.length < 2 ^ 56)
  | .elang pl => decide (pl.length < 2 ^ 56)
  | .ename pl => decide (pl.length < 2 ^ 56)

/-- Abstract children of a BlockGroup element. -/
inductive GChild where
  | blockc (trk : Nat) (ts : Int) (pl : List Nat)
  | durc (d : Nat)
  | otherc (pl : List Nat)
deriving Repr, DecidableEq

/-- Byte encoding of one BlockGroup child (`otherc` uses the Void ID
`0xEC`). -/
def encGChild : GChild → List Nat
  | .blockc trk ts pl =>
    encElem [0xA1] (encSize trk ++ beBytes 2 (ts % 65536).toNat ++ [0] ++ pl)
  | .durc d => encElem [0x9B] (beBytes 8 d)
  | .otherc pl => encElem [0xEC] pl

/-- Byte encoding of a BlockGroup body. -/
def encGList : List GChild → List Nat
  | [] => []
  | g :: gs => encGChild g ++ encGList gs

/-- The per-child state update performed by the `_handle_group` loop: every
Block records its relative timestamp, only a matching Block captures text, a
BlockDuration records its value, anything else is skipped. -/
def gstep (track : Nat) (st : GState) : GChild → GState
  | .blockc trk ts pl =>
    { st with gts := some ts,
              gtxt := if trk = track then some (decodeStrip pl) else st.gtxt }
  | .durc d => { st with gdur := some d }
  | .otherc _ => st

/-- Encodability side condition for a BlockGroup child. -/
def gOk : GChild → Bool
  | .blockc trk ts pl =>
    decide (trk < 2 ^ 56) && decide (-(2 ^ 15) ≤ ts) && decide (ts < 2 ^ 15) &&
      decide (pl.length + 11 < 2 ^ 56)
  | .durc d => decide (d < 256 ^ 8)
  | .otherc pl => decide (pl.length < 2 ^ 56)

/-- Abstract children of a Cluster element. -/
inductive CChild where
  | ctime (v : Nat)
  | csimple (trk : Nat) (ts : Int) (pl : List Nat)
  | cgroup (gs : List GChild)
  | cother (pl : List Nat)
deriving Repr, DecidableEq

/-- Byte encoding of one Cluster child. -/
def encCChild : CChild → List Nat
  | .ctime v => encElem [0xE7] (beBytes 8 v)
  | .csimple trk ts pl =>
    encElem [0xA3] (encSize trk ++ beBytes 2 (ts % 65536).toNat ++ [0] ++ pl)
  | .cgroup gs => encElem [0xA0] (encGList gs)
  | .cother pl => encElem [0xEC] pl

/-- Byte encoding of a Cluster body. -/
def encCList : List CChild → List Nat
  | [] => []
  | c :: cs => encCChild c ++ encCList cs

/-- Encodability side condition for a Cluster child (only the sizes matter
for the timecode search, which skips every non-Timecode child whole). -/
def cOk : CChild → Bool
  | .ctime v => decide (v < 256 ^ 8)
  | .csimple _ _ pl => decide (pl.length + 11 < 2 ^ 56)
  | .cgroup gs => decide ((encGList gs).length < 2 ^ 56)
  | .cother pl => decide (pl.length < 2 ^ 56)

/-- Whether a Cluster child is a Timecode element. -/
def cIsTime : CChild → Bool
  | .ctime _ => true
  | _ => false

/-! ### Concrete byte files used by the claim theorems -/

/-- TrackEntry body of the spec's concrete scenario: type `0x11`, track
number 2, codec `S_TEXT/UTF8`, legacy language `eng`. -/
def c3EntryBody : List Nat :=
  [0x83, 0x81, 0x11] ++
  [0xD7, 0x81, 0x02] ++
  [0x86, 0x8B, 0x53, 0x5F, 0x54, 0x45, 0x58, 0x54, 0x2F, 0x55, 0x54, 0x46, 0x38] ++
  [0x22, 0xB5, 0x9C, 0x83, 0x65, 0x6E, 0x67]

/-- The spec's concrete scenario file: EBML stub, Segment containing one
Tracks element (one TrackEntry) followed by one Cluster with Timecode 1000
and one SimpleBlock for track 2 with relative timestamp 50 and payload
`Hello`. -/
def c3File : List Nat :=
  [0xEC, 0x80] ++
  [0x18, 0x53, 0x80, 0x67, 0xB5] ++
  ([0x16, 0x54, 0xAE, 0x6B, 0x9C] ++ ([0xAE, 0x9A] ++ c3EntryBody)) ++
  ([0x1F, 0x43, 0xB6, 0x75, 0x8F] ++
    ([0xE7, 0x82, 0x03, 0xE8] ++
     [0xA3, 0x89, 0x82, 0x00, 0x32, 0x00, 0x48, 0x65, 0x6C, 0x6C, 0x6F]))

/-- A file whose single Cluster holds a SimpleBlock for track 2 (relative
timestamp 10, payload `Hi`) placed BEFORE the Timecode 1000 element. -/
def c1File : List Nat :=
  [0xEC, 0x80] ++
  [0x18, 0x53, 0x80, 0x67, 0x91] ++
  ([0x1F, 0x43, 0xB6, 0x75, 0x8C] ++
    ([0xA3, 0x86, 0x82, 0x00, 0x0A, 0x00, 0x48, 0x69] ++
     [0xE7, 0x82, 0x03, 0xE8]))

/-- A file whose single Cluster (Timecode 1000) holds one SimpleBlock for
track 2 with relative timestamp 50 whose payload is a single space byte. -/
def c2File : List Nat :=
  [0xEC, 0x80] ++
  [0x18, 0x53, 0x80, 0x67, 0x90] ++
  ([0x1F, 0x43, 0xB6, 0x75, 0x8B] ++
    ([0xE7, 0x82, 0x03, 0xE8] ++
     [0xA3, 0x85, 0x82, 0x00, 0x32, 0x00, 0x20]))

/-- A TrackEntry body carrying a legacy language element `eng` followed by a
BCP-47 language element `fre`. -/
def c4Data : List Nat :=
  [0x22, 0xB5, 0x9C, 0x83, 0x65, 0x6E, 0x67] ++
  [0x22, 0xB5, 0x9D, 0x83, 0x66, 0x72, 0x65]

/-- A file whose single Cluster (Timecode 0) holds one BlockGroup with a
Block for track 2 (relative timestamp 5, payload a single space byte) and a
BlockDuration of 100. -/
def c5File : List Nat :=
  [0xEC, 0x80] ++
  [0x18, 0x53, 0x80, 0x67, 0x94] ++
  ([0x1F, 0x43, 0xB6, 0x75, 0x8F] ++
    ([0xE7, 0x81, 0x00] ++
     ([0xA0, 0x8A] ++
       ([0xA1, 0x85, 0x82, 0x00, 0x05, 0x00, 0x20] ++
        [0x9B, 0x81, 0x64]))))

/-- A file whose Segment declares 10 bytes but whose only child declares a
size of 100, overshooting the segment end. -/
def c6File : List Nat :=
  [0xEC, 0x80] ++
  [0x18, 0x53, 0x80, 0x67, 0x8A] ++
  [0xEC, 0xE4]

/-- A file with two top-level elements, neither of which is a Segment. -/
def c7File : List Nat :=
  [0xEC, 0x80, 0xEC, 0x80]

/-- A file whose single Cluster (Timecode 0) holds a SimpleBlock whose
declared element size 2 makes `payload_length = 2 - 1 - 3 = -2` negative,
followed by a Void element. -/
def c8File : List Nat :=
  [0xEC, 0x80] ++
  [0x18, 0x53, 0x80, 0x67, 0x8E] ++
  ([0x1F, 0x43, 0xB6, 0x75, 0x89] ++
    ([0xE7, 0x81, 0x00] ++
     [0xA3, 0x82, 0x82, 0x41] ++
     [0xEC, 0x80]))

/-- A TrackEntry body truncated mid-element: a TRACKNUMBER header declaring
one content byte, with no content following. -/
def c9Data : List Nat :=
  [0xD7, 0x81]

/-! ### Helper lemmas -/



theorem foldl_be (l : List Nat) : ∀ acc : Nat,
    List.foldl (fun a b => a * 256 + b) acc l = acc * 256 ^ l.length + beVal l := by
  induction l with
  | nil => intro acc; simp [beVal]
  | cons b tl ih =>
    intro acc
    have hb : beVal (b :: tl) = b * 256 ^ tl.length + beVal tl := by
      show List.foldl (fun a b => a * 256 + b) 0 (b :: tl) = _
      rw [List.foldl_cons, ih (0 * 256 + b)]
      ring_nf
    rw [List.foldl_cons, ih (acc * 256 + b), hb, List.length_cons]
    ring

theorem beVal_cons (b : Nat) (tl : List Nat) :
    beVal (b :: tl) = b * 256 ^ tl.length + beVal tl := by
  show List.foldl (fun a b => a * 256 + b) 0 (b :: tl) = _
  rw [List.foldl_cons, foldl_be tl (0 * 256 + b)]
  ring_nf

theorem beVal_append_singleton (l : List Nat) (b : Nat) :
    beVal (l ++ [b]) = beVal l * 256 + b := by
  show List.foldl (fun a b => a * 256 + b) 0 (l ++ [b]) = _
  rw [List.foldl_append]
  simp only [List.foldl_cons, List.foldl_nil]
  rfl

theorem beBytes_length (k n : Nat) : (beBytes k n).length = k := by
  induction k generalizing n with
  | zero => rfl
  | succ k ih => simp [beBytes, ih]

theorem beVal_beBytes (k n : Nat) : beVal (beBytes k n) = n % 256 ^ k := by
  induction k generalizing n with
  | zero => simp [beBytes, beVal, Nat.mod_one]
  | succ k ih =>
    rw [beBytes, beVal_append_singleton, ih]
    have h : (256 : Nat) ^ (k + 1) = 256 * 256 ^ k := by ring
    rw [h, Nat.mod_mul]
    ring

theorem beVal_beBytes_of_lt (k n : Nat) (h : n < 256 ^ k) :
    beVal (beBytes k n) = n := by
  rw [beVal_beBytes, Nat.mod_eq_of_lt h]

theorem drop_append_of_drop {f X Y : List Nat} {p : Nat} (h : f.drop p = X ++ Y) :
    f.drop (p + X.length) = Y := by
  have h2 : (f.drop p).drop X.length = Y := by rw [h, List.drop_left]
  rw [← h2, List.drop_drop, Nat.add_comm p X.length]

theorem take_of_drop {f X Y : List Nat} {p : Nat} (h : f.drop p = X ++ Y) :
    (f.drop p).take X.length = X := by
  rw [h, List.take_left]

theorem readN_spec {f X Y : List Nat} {p n : Nat} (h : f.drop p = X ++ Y)
    (hn : X.length = n) : readN f p n = (X, p + n) := by
  subst hn
  simp [readN, take_of_drop h]

theorem read_id_spec {f : List Nat} {p b : Nat} {tl rest : List Nat}
    (h : f.drop p = (b :: tl) ++ rest) (hb : ¬b = 0) (hlen : vintLen b = tl.length + 1) :
    read_id f p = .ok (beVal (b :: tl), tl.length + 1, p + (tl.length + 1)) := by
  have htake : List.take (tl.length + 1) (b :: (tl ++ rest)) = b :: tl := by
    rw [List.take_succ_cons, List.take_left]
  simp only [read_id, h, List.cons_append]
  rw [if_neg hb, hlen]
  simp [htake]

theorem read_stripped_spec {f : List Nat} {p b : Nat} {tl rest : List Nat}
    (h : f.drop p = (b :: tl) ++ rest) (hb : ¬b = 0) (hlen : vintLen b = tl.length + 1) :
    read_stripped f p =
      .ok (beVal ((b % 2 ^ (8 - (tl.length + 1))) :: tl), tl.length + 1,
        p + (tl.length + 1)) := by
  have htake : List.take (tl.length + 1) (b :: (tl ++ rest)) = b :: tl := by
    rw [List.take_succ_cons, List.take_left]
  simp only [read_stripped, h, List.cons_append]
  rw [if_neg hb, hlen]
  simp [htake]

theorem read_size_encSize {f : List Nat} {p n : Nat} {rest : List Nat}
    (h : f.drop p = encSize n ++ rest) (hn : n < 2 ^ 56) :
    read_size f p = .ok (n, 8, p + 8) := by
  have h' : f.drop p = (1 :: beBytes 7 n) ++ rest := h
  have hlen : vintLen 1 = (beBytes 7 n).length + 1 := by
    rw [beBytes_length]
    decide
  have := read_stripped_spec h' (by decide) hlen
  rw [read_size, this, beBytes_length]
  have hmod : (1 : Nat) % 2 ^ (8 - (7 + 1)) = 0 := by decide
  rw [hmod]
  have hval : beVal (0 :: beBytes 7 n) = n := by
    rw [beVal_cons, beBytes_length, beVal_beBytes_of_lt 7 n (by simpa using hn)]
    simp
  rw [hval]

theorem read_vint_encSize {f : List Nat} {p n : Nat} {rest : List Nat}
    (h : f.drop p = encSize n ++ rest) (hn : n < 2 ^ 56) :
    read_vint f p = .ok (n, 8, p + 8) :=
  read_size_encSize h hn

theorem read_header_enc {f : List Nat} {p b : Nat} {tl pl rest : List Nat}
    (h : f.drop p = encElem (b :: tl) pl ++ rest) (hb : ¬b = 0)
    (hlen : vintLen b = tl.length + 1) (hpl : pl.length < 2 ^ 56) :
    read_header f p = .ok (beVal (b :: tl), pl.length, p + (tl.length + 1) + 8) := by
  have h1 : f.drop p = (b :: tl) ++ (encSize pl.length ++ (pl ++ rest)) := by
    simpa [encElem, List.append_assoc] using h
  have hid := read_id_spec h1 hb hlen
  have h2 : f.drop (p + (tl.length + 1)) = encSize pl.length ++ (pl ++ rest) := by
    have := drop_append_of_drop h1
    simpa using this
  have hsz := read_size_encSize h2 hpl
  rw [read_header, hid]
  simp [hsz]

theorem signed_roundtrip (t : Int) (h1 : -(2 ^ 15) ≤ t) (h2 : t < 2 ^ 15) :
    intFromBytesSigned (beBytes 2 (t % 65536).toNat) = t := by
  have hmod : (0 : Int) ≤ t % 65536 := Int.emod_nonneg t (by decide)
  have hlt : t % 65536 < 65536 := Int.emod_lt_of_pos t (by decide)
  have hv : beVal (beBytes 2 (t % 65536).toNat) = (t % 65536).toNat := by
    apply beVal_beBytes_of_lt
    omega
  rw [intFromBytesSigned]
  simp only [hv, beBytes_length]
  have hcase : t % 65536 = t ∨ t % 65536 = t + 65536 := by omega
  rcases hcase with hc | hc
  · rw [hc]
    have ht0 : 0 ≤ t := by omega
    rw [if_pos (by omega)]
    omega
  · rw [hc]
    rw [if_neg (by omega)]
    omega

theorem encSize_length (n : Nat) : (encSize n).length = 8 := by
  simp [encSize, beBytes_length]

theorem entry_step {data : List Nat} {p b : Nat} {tl pl rest : List Nat}
    (h : data.drop p = encElem (b :: tl) pl ++ rest) (hb : ¬b = 0)
    (hlen : vintLen b = tl.length + 1) (hpl : pl.length < 2 ^ 56) :
    read_header data p = .ok (beVal (b :: tl), pl.length, p + (tl.length + 1) + 8) ∧
      data.drop (p + (tl.length + 1) + 8) = pl ++ rest ∧
      readN data (p + (tl.length + 1) + 8) pl.length =
        (pl, p + (tl.length + 1) + 8 + pl.length) ∧
      data.drop (p + (tl.length + 1) + 8 + pl.length) = rest := by
  have h1 : data.drop p = (b :: tl) ++ (encSize pl.length ++ (pl ++ rest)) := by
    simpa [encElem, List.append_assoc] using h
  have hh := read_header_enc h hb hlen hpl
  have d1 : data.drop (p + (tl.length + 1)) = encSize pl.length ++ (pl ++ rest) := by
    have := drop_append_of_drop h1
    simpa using this
  have d2 : data.drop (p + (tl.length + 1) + 8) = pl ++ rest := by
    have := drop_append_of_drop d1
    rwa [encSize_length] at this
  have d3 : data.drop (p + (tl.length + 1) + 8 + pl.length) = rest := by
    have := drop_append_of_drop d2
    simpa using this
  exact ⟨hh, d2, readN_spec d2 rfl, d3⟩

theorem read_id_eof {f : List Nat} {p : Nat} (h : f.drop p = []) :
    read_id f p = .error .eof := by
  simp [read_id, h]

theorem read_header_eof {f : List Nat} {p : Nat} (h : f.drop p = []) :
    read_header f p = .error .eof := by
  rw [read_header, read_id_eof h]

theorem parseEntryLoop_enc (es : List EElem) :
    ∀ (data : List Nat) (p : Nat) (info : Track) (fuel : Nat),
    data.drop p = encEList es → es.all eOk = true → es.length < fuel →
    parseEntryLoop data fuel p info = .ok (es.foldl estep info) := by
  induction es with
  | nil =>
    intro data p info fuel h _ hfuel
    cases fuel with
    | zero => omega
    | succ fuel' =>
      rw [parseEntryLoop, read_header_eof (by simpa [encEList] using h)]
      rfl
  | cons e es' ih =>
    intro data p info fuel h hok hfuel
    rw [List.all_cons, Bool.and_eq_true] at hok
    have hok' : es'.all eOk = true := hok.2
    have heok : eOk e = true := hok.1
    cases fuel with
    | zero => omega
    | succ fuel' =>
      have hlen2 : es'.length < fuel' := by
        simp only [List.length_cons] at hfuel
        omega
      rw [List.foldl_cons]
      cases e with
      | etype b0 =>
        have h' : data.drop p = encElem [0x83] [b0] ++ encEList es' := by
          simpa [encEList, encEElem] using h
        obtain ⟨hh, hcd, hrn, hdrop⟩ := entry_step h' (by decide) (by decide) (by simp)
        rw [parseEntryLoop, hh]
        simp only [hrn, beVal, List.foldl_cons, List.foldl_nil]
        norm_num [TRACKTYPE]
        exact ih data _ _ fuel' hdrop hok' hlen2
      | enumber v =>
        have h' : data.drop p = encElem [0xD7] v ++ encEList es' := by
          simpa [encEList, encEElem] using h
        have hpl : v.length < 2 ^ 56 := by simpa [eOk] using heok
        obtain ⟨hh, hcd, hrn, hdrop⟩ := entry_step h' (by decide) (by decide) hpl
        rw [parseEntryLoop, hh]
        simp only [hrn, beVal, List.foldl_cons, List.foldl_nil]
        norm_num [TRACKTYPE, TRACKNUMBER, estep]
        exact ih data _ _ fuel' hdrop hok' hlen2
      | ecodec pl =>
        have h' : data.drop p = encElem [0x86] pl ++ encEList es' := by
          simpa [encEList, encEElem] using h
        have hpl : pl.length < 2 ^ 56 := by simpa [eOk] using heok
        obtain ⟨hh, hcd, hrn, hdrop⟩ := entry_step h' (by decide) (by decide) hpl
        rw [parseEntryLoop, hh]
        simp only [hrn, beVal, List.foldl_cons, List.foldl_nil]
        norm_num [TRACKTYPE, TRACKNUMBER, CODECID, estep]
        exact ih data _ _ fuel' hdrop hok' hlen2
      | ebcp47 pl =>
        have h' : data.drop p = encElem [0x22, 0xB5, 0x9D] pl ++ encEList es' := by
          simpa [encEList, encEElem] using h
        have hpl : pl.length < 2 ^ 56 := by simpa [eOk] using heok
        obtain ⟨hh, hcd, hrn, hdrop⟩ := entry_step h' (by decide) (by decide) hpl
        rw [parseEntryLoop, hh]
        simp only [hrn, beVal, List.foldl_cons, List.foldl_nil]
        norm_num [TRACKTYPE, TRACKNUMBER, CODECID, LANG_BCP47, estep]
        exact ih data _ _ fuel' hdrop hok' hlen2
      | elang pl =>
        have h' : data.drop p = encElem [0x22, 0xB5, 0x9C] pl ++ encEList es' := by
          simpa [encEList, encEElem] using h
        have hpl : pl.length < 2 ^ 56 := by simpa [eOk] using heok
        obtain ⟨hh, hcd, hrn, hdrop⟩ := entry_step h' (by decide) (by decide) hpl
        rw [parseEntryLoop, hh]
        simp only [hrn, beVal, List.foldl_cons, List.foldl_nil]
        norm_num [TRACKTYPE, TRACKNUMBER, CODECID, LANG_BCP47, LANG, estep]
        by_cases hl : info.language = ""
        · simp only [if_pos hl]
          exact ih data _ _ fuel' hdrop hok' hlen2
        · simp only [if_neg hl]
          exact ih data _ _ fuel' hdrop hok' hlen2
      | ename pl =>
        have h' : data.drop p = encElem [0x53, 0x6E] pl ++ encEList es' := by
          simpa [encEList, encEElem] using h
        have hpl : pl.length < 2 ^ 56 := by simpa [eOk] using heok
        obtain ⟨hh, hcd, hrn, hdrop⟩ := entry_step h' (by decide) (by decide) hpl
        rw [parseEntryLoop, hh]
        simp only [hrn, beVal, List.foldl_cons, List.foldl_nil]
        norm_num [TRACKTYPE, TRACKNUMBER, CODECID, LANG_BCP47, LANG, TRACKNAME, estep]
        exact ih data _ _ fuel' hdrop hok' hlen2

theorem encEElem_length_pos (e : EElem) : 1 ≤ (encEElem e).length := by
  cases e <;> simp [encEElem, encElem, encSize_length]

theorem encEList_length_ge (es : List EElem) : es.length ≤ (encEList es).length := by
  induction es with
  | nil => simp [encEList]
  | cons e es' ih =>
    have := encEElem_length_pos e
    simp only [encEList, List.length_append, List.length_cons]
    omega

theorem parse_track_entry_enc (es : List EElem) (hok : es.all eOk = true) :
    parse_track_entry (encEList es) = .ok (es.foldl estep Track.init) := by
  have hge := encEList_length_ge es
  exact parseEntryLoop_enc es (encEList es) 0 Track.init ((encEList es).length + 1)
    (by simp) hok (by omega)

theorem block_content_step {f : List Nat} {p trk : Nat} {ts : Int} {pl rest : List Nat}
    (h : f.drop p = (encSize trk ++ beBytes 2 (ts % 65536).toNat ++ [0] ++ pl) ++ rest)
    (htrk : trk < 2 ^ 56) (hts1 : -(2 ^ 15) ≤ ts) (hts2 : ts < 2 ^ 15) :
    read_vint f p = .ok (trk, 8, p + 8) ∧
      readN f (p + 8) 2 = (beBytes 2 (ts % 65536).toNat, p + 8 + 2) ∧
      intFromBytesSigned (beBytes 2 (ts % 65536).toNat) = ts ∧
      readN f (p + 8 + 2) 1 = ([0], p + 8 + 2 + 1) ∧
      readN f (p + 8 + 2 + 1) pl.length = (pl, p + 8 + 2 + 1 + pl.length) ∧
      f.drop (p + 8 + 2 + 1 + pl.length) = rest := by
  have h0 : f.drop p =
      encSize trk ++ (beBytes 2 (ts % 65536).toNat ++ ([0] ++ (pl ++ rest))) := by
    simpa [List.append_assoc] using h
  have hv := read_vint_encSize h0 htrk
  have d1 : f.drop (p + 8) = beBytes 2 (ts % 65536).toNat ++ ([0] ++ (pl ++ rest)) := by
    have := drop_append_of_drop h0
    rwa [encSize_length] at this
  have r1 : readN f (p + 8) 2 = (beBytes 2 (ts % 65536).toNat, p + 8 + 2) :=
    readN_spec d1 (beBytes_length 2 _)
  have d2 : f.drop (p + 8 + 2) = [0] ++ (pl ++ rest) := by
    have := drop_append_of_drop d1
    rwa [beBytes_length] at this
  have r2 : readN f (p + 8 + 2) 1 = ([0], p + 8 + 2 + 1) := readN_spec d2 rfl
  have d3 : f.drop (p + 8 + 2 + 1) = pl ++ rest := by
    simpa using drop_append_of_drop d2
  have r3 : readN f (p + 8 + 2 + 1) pl.length = (pl, p + 8 + 2 + 1 + pl.length) :=
    readN_spec d3 rfl
  have d4 : f.drop (p + 8 + 2 + 1 + pl.length) = rest := by
    simpa using drop_append_of_drop d3
  exact ⟨hv, r1, signed_roundtrip ts hts1 hts2, r2, r3, d4⟩

theorem readI_natCast (f : List Nat) (p n : Nat) : readI f p (n : Int) = readN f p n := by
  simp [readI]

theorem groupLoop_enc (gs : List GChild) :
    ∀ (f : List Nat) (p track : Nat) (st : GState) (fuel : Nat) (rest : List Nat)
      (endp : Nat),
    f.drop p = encGList gs ++ rest → gs.all gOk = true → gs.length < fuel →
    endp = p + (encGList gs).length →
    groupLoop f endp track fuel p st = .ok (gs.foldl (gstep track) st, endp) := by
  induction gs with
  | nil =>
    intro f p track st fuel rest endp h hok hfuel hend
    have hp : endp = p := by
      simpa [encGList] using hend
    cases fuel with
    | zero => omega
    | succ fuel' =>
      rw [groupLoop, if_neg (by omega)]
      rw [hp]
      rfl
  | cons g gs' ih =>
    intro f p track st fuel rest endp h hok hfuel hend
    rw [List.all_cons, Bool.and_eq_true] at hok
    have hok' : gs'.all gOk = true := hok.2
    have hgok : gOk g = true := hok.1
    cases fuel with
    | zero => omega
    | succ fuel' =>
      have hlen2 : gs'.length < fuel' := by
        simp only [List.length_cons] at hfuel
        omega
      rw [List.foldl_cons]
      cases g with
      | blockc trk ts pl =>
        have hconds : trk < 2 ^ 56 ∧ -(2 ^ 15) ≤ ts ∧ ts < 2 ^ 15 ∧
            pl.length + 11 < 2 ^ 56 := by
          simpa [gOk, Bool.and_eq_true, decide_eq_true_eq, and_assoc] using hgok
        obtain ⟨htrk, hts1, hts2, hpl⟩ := hconds
        have hcb : (encSize trk ++ beBytes 2 (ts % 65536).toNat ++ [0] ++ pl).length =
            pl.length + 11 := by
          simp [encSize_length, beBytes_length]
          omega
        have h' : f.drop p =
            encElem [0xA1] (encSize trk ++ beBytes 2 (ts % 65536).toNat ++ [0] ++ pl) ++
              (encGList gs' ++ rest) := by
          simpa [encGList, encGChild, List.append_assoc] using h
        obtain ⟨hh, hcd, hrn, hdrop⟩ := entry_step h' (by decide) (by decide) (by omega)
        rw [hcb] at hh
        obtain ⟨hv, r1, hsgn, r2, r3, d4⟩ := block_content_step hcd htrk hts1 hts2
        have hlg : (encGList (GChild.blockc trk ts pl :: gs')).length =
            pl.length + 20 + (encGList gs').length := by
          simp [encGList, encGChild, encElem, encSize_length, beBytes_length]
          omega
        have hplen : (pl.length : Int) + 11 - 8 - 3 = (pl.length : Int) := by
          ring
        rw [groupLoop, if_pos (by omega : p < endp), hh]
        simp only [hv, r1, hsgn, r2]
        norm_num [BLOCK, beVal]
        norm_num at r3 d4
        rw [hplen, readI_natCast, r3]
        by_cases htr : trk = track
        · simp only [if_pos htr, gstep]
          exact ih f _ track _ fuel' rest endp d4 hok' hlen2 (by omega)
        · simp only [if_neg htr, gstep]
          rw [show p + 1 + 8 + (pl.length + 11) =
            p + 1 + 8 + 8 + 2 + 1 + pl.length from by omega]
          exact ih f _ track _ fuel' rest endp d4 hok' hlen2 (by omega)
      | durc d =>
        have hd : d < 256 ^ 8 := by
          simpa [gOk] using hgok
        have h' : f.drop p = encElem [0x9B] (beBytes 8 d) ++ (encGList gs' ++ rest) := by
          simpa [encGList, encGChild, List.append_assoc] using h
        obtain ⟨hh, hcd, hrn, hdrop⟩ := entry_step h' (by decide) (by decide)
          (by rw [beBytes_length]; decide)
        rw [beBytes_length] at hh hrn hdrop
        have hlg : (encGList (GChild.durc d :: gs')).length =
            17 + (encGList gs').length := by
          simp [encGList, encGChild, encElem, encSize_length, beBytes_length]
          omega
        have hbd : beVal (beBytes 8 d) = d := beVal_beBytes_of_lt 8 d hd
        rw [groupLoop, if_pos (by omega : p < endp), hh]
        simp only [hrn, hbd]
        norm_num [BLOCK, BLOCKDUR, beVal, gstep]
        norm_num at hdrop
        exact ih f _ track _ fuel' rest endp hdrop hok' hlen2 (by omega)
      | otherc pl =>
        have hpl : pl.length < 2 ^ 56 := by
          simpa [gOk] using hgok
        have h' : f.drop p = encElem [0xEC] pl ++ (encGList gs' ++ rest) := by
          simpa [encGList, encGChild, List.append_assoc] using h
        obtain ⟨hh, hcd, hrn, hdrop⟩ := entry_step h' (by decide) (by decide) hpl
        have hlg : (encGList (GChild.otherc pl :: gs')).length =
            9 + pl.length + (encGList gs').length := by
          simp [encGList, encGChild, encElem, encSize_length, beBytes_length]
          omega
        rw [groupLoop, if_pos (by omega : p < endp), hh]
        norm_num [BLOCK, BLOCKDUR, beVal, gstep]
        exact ih f _ track _ fuel' rest endp hdrop hok' hlen2 (by omega)

theorem length_le_of_drop {f X Y : List Nat} {p : Nat} (h : f.drop p = X ++ Y) :
    X.length ≤ f.length := by
  have h1 : (f.drop p).length = X.length + Y.length := by
    rw [h, List.length_append]
  have h2 : (f.drop p).length ≤ f.length := by
    rw [List.length_drop]
    omega
  omega

theorem encGChild_length_pos (g : GChild) : 1 ≤ (encGChild g).length := by
  cases g <;> simp [encGChild, encElem, encSize_length]

theorem encGList_length_ge (gs : List GChild) : gs.length ≤ (encGList gs).length := by
  induction gs with
  | nil => simp [encGList]
  | cons g gs' ih =>
    have := encGChild_length_pos g
    simp only [encGList, List.length_append, List.length_cons]
    omega

theorem handle_group_enc (gs : List GChild) (f : List Nat) (p base track : Nat)
    (rest : List Nat) (h : f.drop p = encGList gs ++ rest) (hok : gs.all gOk = true) :
    handle_group f p (encGList gs).length base track =
      .ok (groupEmit base (gs.foldl (gstep track) GState.init),
        p + (encGList gs).length) := by
  have h1 : gs.length < f.length + 1 := by
    have := encGList_length_ge gs
    have := length_le_of_drop h
    omega
  rw [handle_group,
    groupLoop_enc gs f p track GState.init (f.length + 1) rest
      (p + (encGList gs).length) h hok h1 rfl]

theorem encCList_append (a b : List CChild) :
    encCList (a ++ b) = encCList a ++ encCList b := by
  induction a with
  | nil => simp [encCList]
  | cons c a' ih => simp [encCList, ih]

theorem encCChild_length_pos (c : CChild) : 1 ≤ (encCChild c).length := by
  cases c <;> simp [encCChild, encElem, encSize_length]

theorem encCList_length_ge (cs : List CChild) : cs.length ≤ (encCList cs).length := by
  induction cs with
  | nil => simp [encCList]
  | cons c cs' ih =>
    have := encCChild_length_pos c
    simp only [encCList, List.length_append, List.length_cons]
    omega

theorem read_cluster_time_skip (cs : List CChild) :
    ∀ (f : List Nat) (p fuel : Nat) (rest : List Nat) (endp : Nat),
    f.drop p = encCList cs ++ rest → cs.all cOk = true →
    cs.all (fun c => !cIsTime c) = true → cs.length < fuel →
    endp = p + (encCList cs).length →
    read_cluster_time f endp fuel p = .ok (0, endp) := by
  induction cs with
  | nil =>
    intro f p fuel rest endp h hok hnt hfuel hend
    have hp : endp = p := by
      simpa [encCList] using hend
    cases fuel with
    | zero => omega
    | succ fuel' =>
      rw [read_cluster_time, if_neg (by omega)]
      rw [hp]
  | cons c cs' ih =>
    intro f p fuel rest endp h hok hnt hfuel hend
    rw [List.all_cons, Bool.and_eq_true] at hok hnt
    cases fuel with
    | zero => omega
    | succ fuel' =>
      have hlen2 : cs'.length < fuel' := by
        simp only [List.length_cons] at hfuel
        omega
      cases c with
      | ctime v =>
        simp [cIsTime] at hnt
      | csimple trk ts pl =>
        have hpl : pl.length + 11 < 2 ^ 56 := by
          simpa [cOk] using hok.1
        have hcb : (encSize trk ++ beBytes 2 (ts % 65536).toNat ++ [0] ++ pl).length =
            pl.length + 11 := by
          simp [encSize_length, beBytes_length]
          omega
        have h' : f.drop p =
            encElem [0xA3] (encSize trk ++ beBytes 2 (ts % 65536).toNat ++ [0] ++ pl) ++
              (encCList cs' ++ rest) := by
          simpa [encCList, encCChild, List.append_assoc] using h
        obtain ⟨hh, hcd, hrn, hdrop⟩ := entry_step h' (by decide) (by decide) (by omega)
        have hlg : (encCList (CChild.csimple trk ts pl :: cs')).length =
            pl.length + 20 + (encCList cs').length := by
          simp [encCList, encCChild, encElem, encSize_length, beBytes_length]
          omega
        rw [hcb] at hh hdrop
        rw [read_cluster_time, if_pos (by omega : p < endp), hh]
        norm_num [TIMECODE, beVal]
        norm_num at hdrop
        exact ih f _ fuel' rest endp hdrop hok.2 hnt.2 hlen2 (by omega)
      | cgroup gs =>
        have hpl : (encGList gs).length < 2 ^ 56 := by
          simpa [cOk] using hok.1
        have h' : f.drop p = encElem [0xA0] (encGList gs) ++ (encCList cs' ++ rest) := by
          simpa [encCList, encCChild, List.append_assoc] using h
        obtain ⟨hh, hcd, hrn, hdrop⟩ := entry_step h' (by decide) (by decide) hpl
        have hlg : (encCList (CChild.cgroup gs :: cs')).length =
            9 + (encGList gs).length + (encCList cs').length := by
          simp [encCList, encCChild, encElem, encSize_length, beBytes_length]
          omega
        rw [read_cluster_time, if_pos (by omega : p < endp), hh]
        norm_num [TIMECODE, beVal]
        norm_num at hdrop
        exact ih f _ fuel' rest endp hdrop hok.2 hnt.2 hlen2 (by omega)
      | cother pl =>
        have hpl : pl.length < 2 ^ 56 := by
          simpa [cOk] using hok.1
        have h' : f.drop p = encElem [0xEC] pl ++ (encCList cs' ++ rest) := by
          simpa [encCList, encCChild, List.append_assoc] using h
        obtain ⟨hh, hcd, hrn, hdrop⟩ := entry_step h' (by decide) (by decide) hpl
        have hlg : (encCList (CChild.cother pl :: cs')).length =
            9 + pl.length + (encCList cs').length := by
          simp [encCList, encCChild, encElem, encSize_length, beBytes_length]
          omega
        rw [read_cluster_time, if_pos (by omega : p < endp), hh]
        norm_num [TIMECODE, beVal]
        norm_num at hdrop
        exact ih f _ fuel' rest endp hdrop hok.2 hnt.2 hlen2 (by omega)

theorem read_cluster_time_found (pre : List CChild) :
    ∀ (f : List Nat) (p fuel v : Nat) (suffix : List Nat) (endp : Nat),
    f.drop p = encCList pre ++ (encCChild (.ctime v) ++ suffix) →
    pre.all cOk = true → pre.all (fun c => !cIsTime c) = true →
    pre.length < fuel → v < 256 ^ 8 →
    p + (encCList pre).length < endp →
    read_cluster_time f endp fuel p = .ok (v, p + (encCList pre).length + 17) := by
  induction pre with
  | nil =>
    intro f p fuel v suffix endp h hok hnt hfuel hv hend
    cases fuel with
    | zero => omega
    | succ fuel' =>
      have h' : f.drop p = encElem [0xE7] (beBytes 8 v) ++ suffix := by
        simpa [encCList, encCChild] using h
      obtain ⟨hh, hcd, hrn, hdrop⟩ := entry_step h' (by decide) (by decide)
        (by rw [beBytes_length]; decide)
      rw [beBytes_length] at hh hrn
      have hempty : p + (encCList ([] : List CChild)).length < endp := hend
      rw [read_cluster_time, if_pos (by simpa [encCList] using hempty), hh]
      simp only [hrn, beVal_beBytes_of_lt 8 v hv]
      norm_num [TIMECODE, beVal]
      rfl
  | cons c pre' ih =>
    intro f p fuel v suffix endp h hok hnt hfuel hv hend
    rw [List.all_cons, Bool.and_eq_true] at hok hnt
    cases fuel with
    | zero => omega
    | succ fuel' =>
      have hlen2 : pre'.length < fuel' := by
        simp only [List.length_cons] at hfuel
        omega
      cases c with
      | ctime w =>
        simp [cIsTime] at hnt
      | csimple trk ts pl =>
        have hpl : pl.length + 11 < 2 ^ 56 := by
          simpa [cOk] using hok.1
        have hcb : (encSize trk ++ beBytes 2 (ts % 65536).toNat ++ [0] ++ pl).length =
            pl.length + 11 := by
          simp [encSize_length, beBytes_length]
          omega
        have h' : f.drop p =
            encElem [0xA3] (encSize trk ++ beBytes 2 (ts % 65536).toNat ++ [0] ++ pl) ++
              (encCList pre' ++ (encCChild (.ctime v) ++ suffix)) := by
          simpa [encCList, encCChild, List.append_assoc] using h
        obtain ⟨hh, hcd, hrn, hdrop⟩ := entry_step h' (by decide) (by decide) (by omega)
        have hlg : (encCList (CChild.csimple trk ts pl :: pre')).length =
            pl.length + 20 + (encCList pre').length := by
          simp [encCList, encCChild, encElem, encSize_length, beBytes_length]
          omega
        rw [hcb] at hh hdrop
        rw [read_cluster_time, if_pos (by simp only [hlg] at hend; omega : p < endp), hh]
        norm_num [TIMECODE, beVal]
        norm_num at hdrop
        have := ih f (p + 1 + 8 + (pl.length + 11)) fuel' v suffix endp hdrop
          hok.2 hnt.2 hlen2 hv (by simp only [hlg] at hend; omega)
        rw [this]
        simp only [Except.ok.injEq, Prod.mk.injEq, hlg, true_and]
        omega
      | cgroup gs =>
        have hpl : (encGList gs).length < 2 ^ 56 := by
          simpa [cOk] using hok.1
        have h' : f.drop p = encElem [0xA0] (encGList gs) ++
            (encCList pre' ++ (encCChild (.ctime v) ++ suffix)) := by
          simpa [encCList, encCChild, List.append_assoc] using h
        obtain ⟨hh, hcd, hrn, hdrop⟩ := entry_step h' (by decide) (by decide) hpl
        have hlg : (encCList (CChild.cgroup gs :: pre')).length =
            9 + (encGList gs).length + (encCList pre').length := by
          simp [encCList, encCChild, encElem, encSize_length, beBytes_length]
          omega
        rw [read_cluster_time, if_pos (by simp only [hlg] at hend; omega : p < endp), hh]
        norm_num [TIMECODE, beVal]
        norm_num at hdrop
        have := ih f (p + 1 + 8 + (encGList gs).length) fuel' v suffix endp hdrop
          hok.2 hnt.2 hlen2 hv (by simp only [hlg] at hend; omega)
        rw [this]
        simp only [Except.ok.injEq, Prod.mk.injEq, hlg, true_and]
        omega
      | cother pl =>
        have hpl : pl.length < 2 ^ 56 := by
          simpa [cOk] using hok.1
        have h' : f.drop p = encElem [0xEC] pl ++
            (encCList pre' ++ (encCChild (.ctime v) ++ suffix)) := by
          simpa [encCList, encCChild, List.append_assoc] using h
        obtain ⟨hh, hcd, hrn, hdrop⟩ := entry_step h' (by decide) (by decide) hpl
        have hlg : (encCList (CChild.cother pl :: pre')).length =
            9 + pl.length + (encCList pre').length := by
          simp [encCList, encCChild, encElem, encSize_length, beBytes_length]
          omega
        rw [read_cluster_time, if_pos (by simp only [hlg] at hend; omega : p < endp), hh]
        norm_num [TIMECODE, beVal]
        norm_num at hdrop
        have := ih f (p + 1 + 8 + pl.length) fuel' v suffix endp hdrop
          hok.2 hnt.2 hlen2 hv (by simp only [hlg] at hend; omega)
        rw [this]
        simp only [Except.ok.injEq, Prod.mk.injEq, hlg, true_and]
        omega

theorem read_id_le {f : List Nat} {p eid n p1 : Nat}
    (h : read_id f p = .ok (eid, n, p1)) : p ≤ p1 := by
  rw [read_id] at h
  split at h
  · simp at h
  · split at h
    · simp at h
    · dsimp only at h
      split at h
      · simp at h
      · simp only [Except.ok.injEq, Prod.mk.injEq] at h
        omega

theorem read_stripped_le {f : List Nat} {p v n p1 : Nat}
    (h : read_stripped f p = .ok (v, n, p1)) : p ≤ p1 := by
  rw [read_stripped] at h
  split at h
  · simp at h
  · split at h
    · simp at h
    · dsimp only at h
      split at h
      · simp at h
      · simp only [Except.ok.injEq, Prod.mk.injEq] at h
        omega

theorem read_header_le {f : List Nat} {p eid sz p1 : Nat}
    (h : read_header f p = .ok (eid, sz, p1)) : p ≤ p1 := by
  rw [read_header] at h
  cases h1 : read_id f p with
  | error e =>
    rw [h1] at h
    simp at h
  | ok r =>
    obtain ⟨eid0, n0, q⟩ := r
    rw [h1] at h
    cases h2 : read_size f q with
    | error e =>
      simp [h2] at h
    | ok r2 =>
      obtain ⟨sz0, m0, q2⟩ := r2
      simp only [h2, Except.ok.injEq, Prod.mk.injEq] at h
      have ha := read_id_le h1
      have hb := read_stripped_le h2
      omega

theorem clusterLoop_ok_ge {f : List Nat} {endp base track : Nat} :
    ∀ (fuel p : Nat) (acc cs : List Cue) (q : Nat),
    clusterLoop f endp base track fuel p acc = .ok (cs, q) → endp ≤ q := by
  intro fuel
  induction fuel with
  | zero =>
    intro p acc cs q h
    simp [clusterLoop] at h
  | succ fuel' ih =>
    intro p acc cs q h
    rw [clusterLoop] at h
    by_cases hlt : p < endp
    · rw [if_pos hlt] at h
      cases h1 : read_header f p with
      | error e =>
        rw [h1] at h
        simp at h
      | ok r =>
        obtain ⟨eid, sz, p1⟩ := r
        rw [h1] at h
        simp only at h
        by_cases hsb : eid = SIMPLEBLK
        · rw [if_pos hsb] at h
          cases h2 : handle_block f p1 sz base track with
          | error e =>
            rw [h2] at h
            simp at h
          | ok r2 =>
            obtain ⟨cs2, p2⟩ := r2
            rw [h2] at h
            simp only at h
            exact ih p2 (acc ++ cs2) cs q h
        · rw [if_neg hsb] at h
          by_cases hbg : eid = BLKGROUP
          · rw [if_pos hbg] at h
            cases h2 : handle_group f p1 sz base track with
            | error e =>
              rw [h2] at h
              simp at h
            | ok r2 =>
              obtain ⟨cs2, p2⟩ := r2
              rw [h2] at h
              simp only at h
              exact ih p2 (acc ++ cs2) cs q h
          · rw [if_neg hbg] at h
            exact ih (p1 + sz) acc cs q h
    · rw [if_neg hlt] at h
      simp only [Except.ok.injEq, Prod.mk.injEq] at h
      omega

theorem parse_cluster_ok_ge {f : List Nat} {p sz track : Nat} {cs : List Cue} {q : Nat}
    (h : parse_cluster f p sz track = .ok (cs, q)) : p + sz ≤ q := by
  rw [parse_cluster] at h
  cases h1 : read_cluster_time f (p + sz) (f.length + 1) p with
  | error e =>
    rw [h1] at h
    simp at h
  | ok r =>
    obtain ⟨base, p1⟩ := r
    rw [h1] at h
    simp only at h
    exact clusterLoop_ok_ge (f.length + 1) p1 [] cs q h

theorem percent_mono {segStart segEnd q1 q2 : Nat} (h : q1 ≤ q2) :
    100 * (q1 - segStart) / (segEnd - segStart) ≤
      100 * (q2 - segStart) / (segEnd - segStart) :=
  Nat.div_le_div_right (Nat.mul_le_mul_left 100 (Nat.sub_le_sub_right h segStart))

theorem chain_append_lt {prog : List Nat} {x : Nat}
    (hc : prog.Chain' (· < ·)) (hall : ∀ y ∈ prog, y < x) :
    (prog ++ [x]).Chain' (· < ·) := by
  rw [List.chain'_append]
  refine ⟨hc, List.chain'_singleton x, ?_⟩
  intro y hy z hz
  simp only [List.head?_cons, Option.mem_def, Option.some.injEq] at hz
  subst hz
  exact hall y (List.mem_of_mem_getLast? hy)

theorem segScan_chain {f : List Nat} {track segStart segEnd : Nat} :
    ∀ (fuel p : Nat) (last : Option Nat) (subs : List Cue) (prog : List Nat)
      (res : List Cue × List Nat),
    segScan f track segStart segEnd fuel p last subs prog = .ok res →
    prog.Chain' (· < ·) →
    (∀ l, last = some l → (∀ x ∈ prog, x ≤ l) ∧
      l ≤ 100 * (p - segStart) / (segEnd - segStart)) →
    (last = none → prog = []) →
    res.2.Chain' (· < ·) := by
  intro fuel
  induction fuel with
  | zero =>
    intro p last subs prog res h hc hlast hnone
    simp [segScan] at h
  | succ fuel' ih =>
    intro p last subs prog res h hc hlast hnone
    rw [segScan] at h
    by_cases hlt : p < segEnd
    · rw [if_pos hlt] at h
      cases h1 : read_header f p with
      | error e =>
        rw [h1] at h
        simp at h
      | ok r =>
        obtain ⟨eid, sz, p1⟩ := r
        rw [h1] at h
        simp only at h
        have hp1 : p ≤ p1 := read_header_le h1
        cases h2 : (if eid = CLUSTER then parse_cluster f p1 sz track
            else .ok ([], p1 + sz) : M (List Cue × Nat)) with
        | error e =>
          rw [h2] at h
          simp at h
        | ok r2 =>
          obtain ⟨cs, p2⟩ := r2
          rw [h2] at h
          simp only at h
          have hp2 : p ≤ p2 := by
            by_cases hcl : eid = CLUSTER
            · rw [if_pos hcl] at h2
              have := parse_cluster_ok_ge h2
              omega
            · rw [if_neg hcl] at h2
              simp only [Except.ok.injEq, Prod.mk.injEq] at h2
              omega
          have hpm := @percent_mono segStart segEnd p p2 hp2
          by_cases hne : last ≠ some (100 * (p2 - segStart) / (segEnd - segStart))
          · rw [if_pos hne] at h
            refine ih p2 _ _ _ res h ?_ ?_ ?_
            · apply chain_append_lt hc
              intro y hy
              cases hl : last with
              | none =>
                rw [hnone hl] at hy
                simp at hy
              | some l =>
                have hinv := hlast l hl
                have hyl := hinv.1 y hy
                have hlp2 : l ≤ 100 * (p2 - segStart) / (segEnd - segStart) :=
                  le_trans hinv.2 hpm
                have hlne : l ≠ 100 * (p2 - segStart) / (segEnd - segStart) := by
                  intro hcon
                  rw [hl, hcon] at hne
                  exact hne rfl
                omega
            · intro l hl
              simp only [Option.some.injEq] at hl
              subst hl
              constructor
              · intro x hx
                rw [List.mem_append] at hx
                cases hx with
                | inl hx =>
                  cases hl2 : last with
                  | none =>
                    rw [hnone hl2] at hx
                    simp at hx
                  | some l2 =>
                    have hinv := hlast l2 hl2
                    have := hinv.1 x hx
                    have : l2 ≤ 100 * (p2 - segStart) / (segEnd - segStart) :=
                      le_trans hinv.2 hpm
                    omega
                | inr hx =>
                  simp only [List.mem_singleton] at hx
                  omega
              · exact le_refl _
            · intro hcon
              simp at hcon
          · rw [if_neg hne] at h
            rw [not_not] at hne
            refine ih p2 _ _ _ res h hc ?_ ?_
            · intro l hl
              rw [hne] at hl
              simp only [Option.some.injEq] at hl
              subst hl
              have hinv := hlast _ hne
              exact ⟨hinv.1, le_trans hinv.2 hpm⟩
            · intro hcon
              rw [hne] at hcon
              simp at hcon
    · rw [if_neg hlt] at h
      simp only [Except.ok.injEq] at h
      rw [← h]
      exact hc

theorem groupEmit_text_ne (base : Nat) (st : GState) :
    ∀ c ∈ groupEmit base st, c.text ≠ "" := by
  intro c hc
  rw [groupEmit] at hc
  split at hc
  · rename_i t r _
    split at hc
    · simp at hc
    · rename_i hte
      split at hc
      · rename_i d
        split at hc
        · simp only [List.mem_singleton] at hc
          subst hc
          simpa [Cue.text] using hte
        · simp only [List.mem_singleton] at hc
          subst hc
          simpa [Cue.text] using hte
      · simp only [List.mem_singleton] at hc
        subst hc
        simpa [Cue.text] using hte
  · simp at hc

/-! ### Claim theorems -/

/-- C1 counterexample: the claim says a cue-bearing SimpleBlock placed before
the Cluster's Timecode element is still processed (with base 0) and never
silently dropped.  On `c1File` the SimpleBlock for track 2 (timestamp 10,
payload `Hi`) precedes the Timecode, and extraction returns no cue at all:
`_read_cluster_time` consumes and skips it while searching for the
Timecode. -/
theorem c1_counterexample : extract_subtitles c1File 2 = .ok ([], [100]) := rfl

/-- C1 (amended): in a Cluster with no Timecode element, the timecode search
consumes the whole cluster body and no block is processed at all (no cues,
position at the cluster's end); when a Timecode (value `v`) is present, every
child before it is consumed and skipped by the search, and block scanning is
exactly the scan of the region after the Timecode with base `v` — blocks
before the Timecode are dropped, not processed with base 0. -/
theorem c1_blocks_before_timecode_are_skipped :
    (∀ (cs : List CChild) (f : List Nat) (p track : Nat) (rest : List Nat),
      f.drop p = encCList cs ++ rest → cs.all cOk = true →
      cs.all (fun c => !cIsTime c) = true →
      parse_cluster f p (encCList cs).length track =
        .ok ([], p + (encCList cs).length)) ∧
    (∀ (pre post : List CChild) (v : Nat) (f : List Nat) (p track : Nat)
      (rest : List Nat),
      f.drop p = encCList (pre ++ CChild.ctime v :: post) ++ rest →
      pre.all cOk = true → pre.all (fun c => !cIsTime c) = true → v < 256 ^ 8 →
      parse_cluster f p (encCList (pre ++ CChild.ctime v :: post)).length track =
        clusterLoop f (p + (encCList (pre ++ CChild.ctime v :: post)).length) v track
          (f.length + 1) (p + (encCList pre).length + 17) []) := by
  constructor
  · intro cs f p track rest h hok hnt
    have hfuel : cs.length < f.length + 1 := by
      have := encCList_length_ge cs
      have := length_le_of_drop h
      omega
    rw [parse_cluster,
      read_cluster_time_skip cs f p (f.length + 1) rest (p + (encCList cs).length)
        h hok hnt hfuel rfl]
    simp only
    rw [clusterLoop, if_neg (by omega)]
  · intro pre post v f p track rest h hok hnt hv
    have hshape : f.drop p =
        encCList pre ++ (encCChild (CChild.ctime v) ++ (encCList post ++ rest)) := by
      rw [encCList_append] at h
      simpa [encCList, List.append_assoc] using h
    have hctl : (encCChild (CChild.ctime v)).length = 17 := by
      simp [encCChild, encElem, encSize_length, beBytes_length]
    have htot : (encCList (pre ++ CChild.ctime v :: post)).length =
        (encCList pre).length + 17 + (encCList post).length := by
      rw [encCList_append]
      simp only [encCList, List.length_append]
      omega
    have hfuel : pre.length < f.length + 1 := by
      have h1 := encCList_length_ge pre
      have h2 : (encCList pre).length ≤ f.length := by
        have h3 : f.drop p = (encCList pre ++ encCChild (CChild.ctime v)) ++
            (encCList post ++ rest) := by
          rw [hshape]
          simp [List.append_assoc]
        have := length_le_of_drop h3
        simp only [List.length_append] at this
        omega
      omega
    rw [parse_cluster,
      read_cluster_time_found pre f p (f.length + 1) v (encCList post ++ rest)
        (p + (encCList (pre ++ CChild.ctime v :: post)).length) hshape hok hnt hfuel hv
        (by rw [htot]; omega)]

/-- C1 witness: both parts of the amended claim evaluated at concrete
clusters (a lone SimpleBlock child and no Timecode; a Void child followed by
Timecode 7). -/
theorem c1_witness :
    parse_cluster (encCList [CChild.csimple 2 5 [0x41]]) 0
        (encCList [CChild.csimple 2 5 [0x41]]).length 2 = .ok ([], 21) ∧
    parse_cluster (encCList [CChild.cother [], CChild.ctime 7]) 0
        (encCList [CChild.cother [], CChild.ctime 7]).length 2 =
      clusterLoop (encCList [CChild.cother [], CChild.ctime 7]) 26 7 2 27 26 [] :=
  ⟨c1_blocks_before_timecode_are_skipped.1 [CChild.csimple 2 5 [0x41]]
      (encCList [CChild.csimple 2 5 [0x41]]) 0 2 [] (by simp) (by decide) (by decide),
    c1_blocks_before_timecode_are_skipped.2 [CChild.cother []] [] 7
      (encCList [CChild.cother [], CChild.ctime 7]) 0 2 [] (by simp) (by decide)
      (by decide) (by decide)⟩

/-- C2 counterexample: the claim says a block whose payload trims to the
empty string emits no cue.  On `c2File`, a SimpleBlock for track 2 whose
payload is a single space byte, `_handle_block` emits the cue
`(1050, "")` unconditionally — a cue with empty trimmed text. -/
theorem c2_counterexample :
    extract_subtitles c2File 2 = .ok ([Cue.two 1050 ""], [100]) := rfl

/-- C2 (amended): only `_handle_group` enforces the non-empty-text invariant
(every cue a BlockGroup emits has non-empty text), while `_handle_block`
emits exactly one 2-tuple cue for every matching SimpleBlock regardless of
whether its trimmed text is empty. -/
theorem c2_empty_text_policy :
    (∀ (f : List Nat) (p sz base track : Nat) (cues : List Cue) (q : Nat),
      handle_group f p sz base track = .ok (cues, q) →
      ∀ c ∈ cues, c.text ≠ "") ∧
    (∀ (f : List Nat) (p sz base track vlen p1 : Nat),
      read_vint f p = .ok (track, vlen, p1) →
      ∃ (q : Nat) (c : Cue), handle_block f p sz base track = .ok ([c], q)) := by
  constructor
  · intro f p sz base track cues q h c hc
    rw [handle_group] at h
    cases h1 : groupLoop f (p + sz) track (f.length + 1) p GState.init with
    | error e =>
      rw [h1] at h
      simp at h
    | ok r =>
      obtain ⟨st, p'⟩ := r
      rw [h1] at h
      simp only [Except.ok.injEq, Prod.mk.injEq] at h
      rw [← h.1] at hc
      exact groupEmit_text_ne base st c hc
  · intro f p sz base track vlen p1 hv
    rw [handle_block, hv]
    simp only [if_true]
    exact ⟨_, _, rfl⟩

/-- C2 witness: the group half at an empty group (which emits nothing) and
the block half at a concrete matching SimpleBlock body. -/
theorem c2_witness :
    (∀ c ∈ ([] : List Cue), Cue.text c ≠ "") ∧
    (∃ (q : Nat) (c : Cue),
      handle_block [0x82, 0x00, 0x32, 0x00, 0x41] 0 8 0 2 = .ok ([c], q)) :=
  ⟨c2_empty_text_policy.1 [] 0 0 0 0 [] 0 rfl,
    c2_empty_text_policy.2 [0x82, 0x00, 0x32, 0x00, 0x41] 0 8 0 2 1 1 rfl⟩

/-- C3: on the spec's concrete file (one subtitle TrackEntry of type `0x11`,
track 2, codec `S_TEXT/UTF8`, language `eng`, then one Cluster with Timecode
1000 containing one SimpleBlock for track 2 with relative timestamp 50 and
payload `Hello`), track listing returns exactly that descriptor and cue
extraction returns exactly the cue `(1050, "Hello")`. -/
theorem c3_concrete_scenario :
    extract_subtitle_tracks c3File = .ok [⟨0x11, 2, "S_TEXT/UTF8", "eng", ""⟩] ∧
      extract_subtitles c3File 2 = .ok ([Cue.two 1050 "Hello"], [62, 100]) :=
  ⟨rfl, rfl⟩

/-- C4 counterexample: the claim says the language, once set to a non-empty
value, is never overwritten by a later language element.  On `c4Data` the
legacy language element `eng` comes first, yet the later BCP-47 element
overwrites it: the result is `fre`, not `eng`. -/
theorem c4_counterexample :
    parse_track_entry c4Data = .ok ⟨0, 0, "", "fre", ""⟩ ∧ "fre" ≠ "eng" :=
  ⟨rfl, by decide⟩

/-- C4 (amended): a BCP-47 language element always overwrites the language
field, whatever was set before it; a legacy language element sets the field
only when it is still empty (so only among legacy elements does the first
non-empty value win). -/
theorem c4_language_precedence (es : List EElem) (pl : List Nat) (hok : es.all eOk = true)
    (hpl : pl.length < 2 ^ 56) :
    (parse_track_entry (encEList (es ++ [.ebcp47 pl]))).map Track.language =
      .ok (pyDecode pl) ∧
    (parse_track_entry (encEList (es ++ [.elang pl]))).map Track.language =
      .ok (if (es.foldl estep Track.init).language = "" then pyDecode pl
        else (es.foldl estep Track.init).language) := by
  constructor
  · have hok2 : (es ++ [EElem.ebcp47 pl]).all eOk = true := by
      rw [List.all_append, hok]
      simpa [eOk] using hpl
    rw [parse_track_entry_enc _ hok2, List.foldl_append]
    simp [estep, Except.map]
  · have hok2 : (es ++ [EElem.elang pl]).all eOk = true := by
      rw [List.all_append, hok]
      simpa [eOk] using hpl
    rw [parse_track_entry_enc _ hok2, List.foldl_append]
    by_cases hl : (es.foldl estep Track.init).language = ""
    · simp [estep, hl, Except.map]
    · simp [estep, hl, Except.map]

/-- C4 witness: with the legacy element `eng` first, an appended BCP-47
element `fre` overwrites (result `fre`), while an appended second legacy
element does not (result stays `eng`). -/
theorem c4_witness :
    (parse_track_entry (encEList [EElem.elang [0x65, 0x6E, 0x67],
        EElem.ebcp47 [0x66, 0x72, 0x65]])).map Track.language = .ok "fre" ∧
    (parse_track_entry (encEList [EElem.elang [0x65, 0x6E, 0x67],
        EElem.elang [0x66, 0x72, 0x65]])).map Track.language = .ok "eng" :=
  c4_language_precedence [EElem.elang [0x65, 0x6E, 0x67]] [0x66, 0x72, 0x65]
    (by decide) (by decide)

/-- C5 counterexample: the claim says a BlockGroup in which a matching
Block's text was captured and a non-zero BlockDuration was read emits exactly
one 3-tuple cue.  On `c5File` the matching Block's payload is a single space
byte, so the captured text trims to `""` and — although text was captured, a
timestamp recorded and a duration of 100 read — nothing is emitted. -/
theorem c5_counterexample : extract_subtitles c5File 2 = .ok ([], [100]) := rfl

/-- C5 (amended): for a BlockGroup whose captured matching text is non-empty
after trimming and whose relative timestamp was recorded: exactly one 3-tuple
`(base+r, t, base+r+d)` is emitted when a non-zero BlockDuration `d` was
read, exactly one 2-tuple `(base+r, t)` when no BlockDuration (or a zero one)
was read; and when no matching Block text was captured, nothing is
emitted. -/
theorem c5_group_emission_policy (gs : List GChild) (f : List Nat) (p base track : Nat) (rest : List Nat)
    (h : f.drop p = encGList gs ++ rest) (hok : gs.all gOk = true) :
    (∀ t r d, (gs.foldl (gstep track) GState.init).gtxt = some t → t ≠ "" →
      (gs.foldl (gstep track) GState.init).gts = some r →
      (gs.foldl (gstep track) GState.init).gdur = some d → d ≠ 0 →
      handle_group f p (encGList gs).length base track =
        .ok ([Cue.three ((base : Int) + r) t ((base : Int) + r + (d : Int))],
          p + (encGList gs).length)) ∧
    (∀ t r, (gs.foldl (gstep track) GState.init).gtxt = some t → t ≠ "" →
      (gs.foldl (gstep track) GState.init).gts = some r →
      ((gs.foldl (gstep track) GState.init).gdur = none ∨
        (gs.foldl (gstep track) GState.init).gdur = some 0) →
      handle_group f p (encGList gs).length base track =
        .ok ([Cue.two ((base : Int) + r) t], p + (encGList gs).length)) ∧
    ((gs.foldl (gstep track) GState.init).gtxt = none →
      handle_group f p (encGList gs).length base track =
        .ok ([], p + (encGList gs).length)) := by
  have hg := handle_group_enc gs f p base track rest h hok
  refine ⟨?_, ?_, ?_⟩
  · intro t r d ht hte hr hd hdne
    rw [hg, groupEmit, ht, hr]
    simp only [if_neg hte, hd, if_pos hdne]
  · intro t r ht hte hr hd
    rw [hg, groupEmit, ht, hr]
    rcases hd with hd | hd
    · simp only [if_neg hte, hd]
    · simp only [if_neg hte, hd]
      norm_num
  · intro ht
    rw [hg, groupEmit, ht]

/-- C5 witness: a group with one matching Block (timestamp 5, payload `A`)
and BlockDuration 100 emits exactly the 3-tuple `(5, "A", 105)`. -/
theorem c5_witness :
    handle_group (encGList [GChild.blockc 2 5 [0x41], GChild.durc 100]) 0
        (encGList [GChild.blockc 2 5 [0x41], GChild.durc 100]).length 0 2 =
      .ok ([Cue.three 5 "A" 105],
        (encGList [GChild.blockc 2 5 [0x41], GChild.durc 100]).length) :=
  (c5_group_emission_policy [GChild.blockc 2 5 [0x41], GChild.durc 100]
      (encGList [GChild.blockc 2 5 [0x41], GChild.durc 100]) 0 0 2 [] (by simp)
      (by decide)).1 "A" 5 100 rfl (by decide) rfl rfl (by decide)

/-- C6 counterexample: the claim says every value passed to the progress
callback lies in [0,1].  On `c6File` the Segment declares 10 bytes but its
only child declares a size of 100, so after skipping it the reported integer
percentage is 1020 — the callback receives 10.2, outside [0,1]. -/
theorem c6_counterexample :
    extract_subtitles c6File 1 = .ok ([], [1020]) ∧ 100 < 1020 :=
  ⟨rfl, by norm_num⟩

/-- C6 (amended): for every input file, the sequence of integer percentages
passed to the progress callback during one extraction is strictly increasing
(hence non-decreasing, and the callback fires only when the integer
percentage changes; the `-1` sentinel makes the first computed percentage
always fire).  Each value is `percent / 100 ≥ 0`, but it can exceed 1 when a
child's declared size overshoots the declared segment end, so the [0,1]
bound of the original claim does not hold in general. -/
theorem c6_progress_strictly_increasing (f : List Nat) (track : Nat) (cues : List Cue) (prog : List Nat)
    (h : extract_subtitles f track = .ok (cues, prog)) :
    prog.Chain' (· < ·) := by
  rw [extract_subtitles, extract_subtitles_from] at h
  cases h1 : read_header f 0 with
  | error e =>
    rw [h1] at h
    simp at h
  | ok r =>
    obtain ⟨i0, h0, p1⟩ := r
    rw [h1] at h
    simp only at h
    cases h2 : read_header f (p1 + h0) with
    | error e =>
      rw [h2] at h
      simp at h
    | ok r2 =>
      obtain ⟨eid, hh2, p2⟩ := r2
      rw [h2] at h
      simp only at h
      by_cases hs : eid = SEGMENT
      · rw [if_pos hs] at h
        exact segScan_chain (f.length + 1) p2 none [] [] (cues, prog) h
          List.chain'_nil (by simp) (fun _ => rfl)
      · rw [if_neg hs] at h
        simp only [Except.ok.injEq, Prod.mk.injEq] at h
        rw [← h.2]
        exact List.chain'_nil

/-- C6 witness: on the concrete scenario file the percentage trace is
`[62, 100]`, strictly increasing. -/
theorem c6_witness : List.Chain' (· < ·) [62, 100] :=
  c6_progress_strictly_increasing c3File 2 [Cue.two 1050 "Hello"] [62, 100] rfl

/-- C7: whenever the file's first top-level header parses and the second
top-level element is not the Segment, both entry points return an empty
result: `extract_subtitle_tracks` returns `[]` and `extract_subtitles`
returns no cues with no progress-callback invocation, and neither raises. -/
theorem c7_missing_segment (f : List Nat) (track i0 h0 p1 eid h2 p2 : Nat)
    (ha : read_header f 0 = .ok (i0, h0, p1))
    (hb : read_header f (p1 + h0) = .ok (eid, h2, p2))
    (hne : eid ≠ SEGMENT) :
    extract_subtitle_tracks f = .ok [] ∧ extract_subtitles f track = .ok ([], []) := by
  constructor
  · rw [extract_subtitle_tracks, ha]
    simp only
    rw [hb]
    simp only
    rw [if_neg hne]
  · rw [extract_subtitles, extract_subtitles_from, ha]
    simp only
    rw [hb]
    simp only
    rw [if_neg hne]

/-- C7 witness: a file of two Void elements (no Segment) yields empty results
from both entry points. -/
theorem c7_witness :
    extract_subtitle_tracks c7File = .ok [] ∧
      extract_subtitles c7File 2 = .ok ([], []) :=
  c7_missing_segment c7File 2 0xEC 0 2 0xEC 0 4 rfl rfl (by decide)

/-- C8: on `c8File` a SimpleBlock declares element size 2, making
`payload_length = 2 - 1 - 3 = -2`.  The code does not surface a
corrupt-element error: for the matching track it calls `f.read(-2)`, which in
CPython returns all remaining bytes, so extraction silently succeeds and
emits a cue whose timestamp bytes were read past the element's end
(`16876 = 0x41EC`) with the remaining data as payload text. -/
theorem c8_negative_payload_behaviour :
    extract_subtitles c8File 2 = .ok ([Cue.two 16876 ""], [100]) := rfl

/-- C9 counterexample: the claim says truncation inside a TrackEntry is
treated as a corrupt-file error and propagated.  On `c9Data` — a TRACKNUMBER
header declaring one content byte with no content following — the short read
silently yields zero bytes, `int.from_bytes` of the empty string gives 0, and
the entry parses cleanly with `track_number = 0` instead of raising. -/
theorem c9_counterexample : parse_track_entry c9Data = .ok ⟨0, 0, "", "", ""⟩ :=
  rfl

/-- C9 (amended): truncation at a header read during the in-buffer Tracks and
TrackEntry scans ends that scan cleanly with the results accumulated so far
(the `EOFError` is caught); truncation at a header read in the file-level
Segment scan propagates as an error rather than ending cleanly; and
truncation at a Block's track-number vint propagates as an error.  Truncation
inside a TrackEntry child's content, however, is silently absorbed (short
reads yield default values), contrary to the original claim. -/
theorem c9_truncation_policy :
    (∀ (data : List Nat) (p : Nat) (info : Track) (fuel : Nat),
      read_id data p = .error .eof → parseEntryLoop data (fuel + 1) p info = .ok info) ∧
    (∀ (data : List Nat) (p : Nat) (acc : List Track) (fuel : Nat),
      read_id data p = .error .eof → parseTracksLoop data (fuel + 1) p acc = .ok acc) ∧
    (∀ (f : List Nat) (endp fuel p : Nat) (e : Err),
      p < endp → read_header f p = .error e →
      tracksScan f endp (fuel + 1) p = .error e) ∧
    (∀ (f : List Nat) (p sz base track : Nat) (e : Err),
      read_vint f p = .error e → handle_block f p sz base track = .error e) := by
  refine ⟨?_, ?_, ?_, ?_⟩
  · intro data p info fuel hid
    rw [parseEntryLoop, read_header, hid]
  · intro data p acc fuel hid
    rw [parseTracksLoop, read_header, hid]
  · intro f endp fuel p e hlt hh
    rw [tracksScan, if_pos hlt, hh]
  · intro f p sz base track e hv
    rw [handle_block, hv]

/-- C9 witness: the four parts of the amended claim evaluated at empty or
truncated inputs. -/
theorem c9_witness :
    parseEntryLoop [] 1 0 Track.init = .ok Track.init ∧
    parseTracksLoop [] 1 0 [] = .ok [] ∧
    tracksScan [] 5 1 0 = .error .eof ∧
    handle_block [] 0 5 0 2 = .error .eof :=
  ⟨c9_truncation_policy.1 [] 0 Track.init 0 rfl,
    c9_truncation_policy.2.1 [] 0 [] 0 rfl,
    c9_truncation_policy.2.2.1 [] 5 0 0 .eof (by decide) rfl,
    c9_truncation_policy.2.2.2 [] 0 5 0 2 .eof rfl⟩

/-- C10: in a BlockGroup holding a Block for the requested track (timestamp
`tsM`, payload `plM` with non-empty trimmed text) followed by a Block for a
different track (timestamp `tsL`), the emitted cue's start time is
`base + tsL` — the relative timestamp of the last Block child scanned, even
though that block belongs to another track — while its text comes from the
matching Block. -/
theorem c10_last_block_timestamp (pre : List GChild) (tsM : Int) (plM : List Nat) (trkL : Nat)
    (tsL : Int) (plL : List Nat) (f : List Nat) (p base track : Nat) (rest : List Nat)
    (h : f.drop p =
      encGList (pre ++ [.blockc track tsM plM, .blockc trkL tsL plL]) ++ rest)
    (hok : (pre ++ [GChild.blockc track tsM plM, GChild.blockc trkL tsL plL]).all gOk =
      true)
    (hne : trkL ≠ track) (htxt : decodeStrip plM ≠ "") :
    ∃ c : Cue,
      handle_group f p
          (encGList (pre ++ [GChild.blockc track tsM plM,
            GChild.blockc trkL tsL plL])).length base track =
        .ok ([c],
          p + (encGList (pre ++ [GChild.blockc track tsM plM,
            GChild.blockc trkL tsL plL])).length) ∧
      c.start = (base : Int) + tsL ∧ c.text = decodeStrip plM := by
  have hg := handle_group_enc _ f p base track rest h hok
  rw [List.foldl_append] at hg
  simp only [List.foldl_cons, List.foldl_nil, gstep, if_true, if_neg hne] at hg
  rcases hgd : (pre.foldl (gstep track) GState.init).gdur with _ | d
  · refine ⟨Cue.two ((base : Int) + tsL) (decodeStrip plM), ?_, rfl, rfl⟩
    rw [hg, groupEmit]
    simp only [if_true, hgd, if_neg htxt]
  · by_cases hd : d = 0
    · refine ⟨Cue.two ((base : Int) + tsL) (decodeStrip plM), ?_, rfl, rfl⟩
      rw [hg, groupEmit]
      simp only [if_true, hgd, if_neg htxt, hd]
      norm_num
    · refine ⟨Cue.three ((base : Int) + tsL) (decodeStrip plM)
        ((base : Int) + tsL + (d : Int)), ?_, rfl, rfl⟩
      rw [hg, groupEmit]
      simp only [if_true, hgd, if_neg htxt, if_pos hd]

/-- C10 witness: track 2's Block (timestamp 5, text `A`) followed by track
3's Block (timestamp 9) yields one cue with start 9 and text `A`. -/
theorem c10_witness :
    ∃ c : Cue,
      handle_group (encGList [GChild.blockc 2 5 [0x41], GChild.blockc 3 9 []]) 0
          (encGList [GChild.blockc 2 5 [0x41], GChild.blockc 3 9 []]).length 0 2 =
        .ok ([c],
          (encGList [GChild.blockc 2 5 [0x41], GChild.blockc 3 9 []]).length) ∧
      c.start = 9 ∧ c.text = "A" :=
  c10_last_block_timestamp [] 5 [0x41] 3 9 []
    (encGList [GChild.blockc 2 5 [0x41], GChild.blockc 3 9 []]) 0 0 2 []
    (by simp) (by decide) (by decide) (by decide)

end Mkv
